import Mathlib

/-
Shallow embedding of media/libstagefright/Prefetcher.cpp.

The subsystem has two parts:
  * `PrefetchedSource` (one per registered media source): a cache of
    copied `MediaBuffer`s with started / reached-EOS / pending-seek /
    prefetcher-stopped flags and a derived cached-duration field.
  * `Prefetcher`: the scheduler.  Its worker loop scans the registry
    (a list of weak references, modelled as `Option PSState`), selects
    the eligible cache of strictly least buffered duration, and asks it
    to fetch one more buffer (`cacheMore`).

Machine integers (`int64_t`, `status_t`) are modelled as `Int`; a
`status_t` of `0` is `OK`.  `CHECK(...)` failures (process aborts) are
modelled by `Option`/distinguished result constructors.  Blocking of a
consumer `read` is modelled by a distinguished `blocked` result that
carries the state at the moment the thread would wait.
-/

namespace Stagefright

/-- One media buffer: opaque payload bytes, a byte-range view into the
payload, and the `kKeyTime` metadata entry when present. -/
structure MediaBuffer where
  data : List Nat
  rangeOffset : Nat
  rangeLength : Nat
  timeUs : Option Int
deriving DecidableEq

/-- State of one `PrefetchedSource` (mutex/condition and the wrapped
`mSource` pointer are not part of the state; the wrapped source's
behaviour is passed to each operation as an explicit argument). -/
structure PSState where
  mStarted : Bool
  mReachedEOS : Bool
  mSeekTimeUs : Int
  mCacheDurationUs : Int
  mPrefetcherStopped : Bool
  mCachedBuffers : List MediaBuffer
deriving DecidableEq

/-- Cache about 10 secs for each source (`kMaxCacheDurationUs`). -/
def kMaxCacheDurationUs : Int := 10000000

/-- `PrefetchedSource::updateCacheDuration_l`.  Recomputes the cached
duration from the queue.  `none` models the `CHECK(...findInt64(kKeyTime...))`
abort when the first or last queued buffer carries no timestamp. -/
def updateCacheDuration_l (bufs : List MediaBuffer) : Option Int :=
  if bufs.length < 2 then some 0
  else
    match bufs.head?.bind MediaBuffer.timeUs, bufs.getLast?.bind MediaBuffer.timeUs with
    | some f, some l => some (l - f)
    | _, _ => none

/-- The spec's duration-accounting rule, written from the spec's words:
duration = timestamp(newest queued) - timestamp(oldest queued) when at
least two buffers are queued, else 0. -/
def durSpec (bufs : List MediaBuffer) : Int :=
  if bufs.length < 2 then 0
  else ((bufs.getLast?.bind MediaBuffer.timeUs).getD 0)
       - ((bufs.head?.bind MediaBuffer.timeUs).getD 0)

/-- The stored duration field agrees with the spec's accounting rule. -/
def durInv (s : PSState) : Prop :=
  s.mCacheDurationUs = durSpec s.mCachedBuffers

instance (s : PSState) : Decidable (durInv s) := by
  unfold durInv; infer_instance

/-- Every queued buffer carries a timestamp. -/
def allTs (bufs : List MediaBuffer) : Bool :=
  bufs.all fun b => b.timeUs.isSome

/-- `PrefetchedSource::clearCache_l`: release every queued buffer and
recompute the duration (over the now-empty queue). -/
def clearCache_l (s : PSState) : PSState :=
  { s with mCachedBuffers := [],
           mCacheDurationUs := (updateCacheDuration_l []).getD 0 }

/-- `PrefetchedSource::PrefetchedSource` member initialisers. -/
def initPrefetchedSource : PSState :=
  { mStarted := false
    mReachedEOS := false
    mSeekTimeUs := 0
    mCacheDurationUs := 0
    mPrefetcherStopped := false
    mCachedBuffers := [] }

/-- `PrefetchedSource::start`.  `srcStart` is the wrapped source's
`start`, applied to the forwarded `params`.  `none` models the
`CHECK(!mStarted)` abort. -/
def start {α : Type} (s : PSState) (srcStart : α → Int) (params : α) :
    Option (Int × PSState) :=
  if s.mStarted then none
  else
    let err := srcStart params
    if err ≠ 0 then some (err, s)
    else some (0, { s with mStarted := true })

/-- `PrefetchedSource::stop`.  `srcStopErr` is the status returned by the
wrapped source's `stop`.  `none` models the `CHECK(mStarted)` abort. -/
def stop (s : PSState) (srcStopErr : Int) : Option (Int × PSState) :=
  if !s.mStarted then none
  else
    let s1 := clearCache_l s
    some (srcStopErr, { s1 with mStarted := false })

/-- Result of `PrefetchedSource::read`.
`crash` models a `CHECK` abort, `blocked` carries the state at the moment
the calling thread waits on the condition, `eosR` is the
`ERROR_END_OF_STREAM` return (with `*out` left `NULL`), and `okR` returns
the popped buffer (ownership transferred) along with the new state. -/
inductive ReadResult where
  | crash : ReadResult
  | blocked : PSState → ReadResult
  | eosR : PSState → ReadResult
  | okR : MediaBuffer → PSState → ReadResult
deriving DecidableEq

/-- The condition of the wait loop in `PrefetchedSource::read`:
`!mPrefetcherStopped && !mReachedEOS && mCachedBuffers.empty()`. -/
def waitCond (s : PSState) : Bool :=
  !s.mPrefetcherStopped && !s.mReachedEOS && s.mCachedBuffers.isEmpty

/-- `PrefetchedSource::read`.  `seekOpt` is the seek-to timestamp carried
by the `ReadOptions`, when present. -/
def read (s : PSState) (seekOpt : Option Int) : ReadResult :=
  if !s.mStarted then .crash
  else
    let s1? : Option PSState :=
      match seekOpt with
      | none => some s
      | some t =>
        if t < 0 then none
        else some { clearCache_l s with mReachedEOS := false, mSeekTimeUs := t }
    match s1? with
    | none => .crash
    | some s1 =>
      if waitCond s1 then .blocked s1
      else if s1.mCachedBuffers.isEmpty then .eosR s1
      else
        match s1.mCachedBuffers with
        | [] => .crash
        | b :: rest =>
          match updateCacheDuration_l rest with
          | none => .crash
          | some d => .okR b { s1 with mCachedBuffers := rest, mCacheDurationUs := d }

/-- `PrefetchedSource::getCacheDurationUs`: returns (caching?, duration). -/
def getCacheDurationUs (s : PSState) : Bool × Int :=
  if !s.mStarted || s.mReachedEOS then (false, 0)
  else (true, s.mCacheDurationUs)

/-- The buffer copy made in `PrefetchedSource::cacheMore`: `range_length`
bytes starting at `range_offset`, with the `kKeyTime` entry copied only
when the source's buffer carries one. -/
def copyBuffer (b : MediaBuffer) : MediaBuffer :=
  { data := (b.data.drop b.rangeOffset).take b.rangeLength
    rangeOffset := 0
    rangeLength := b.rangeLength
    timeUs := b.timeUs }

/-- What the wrapped source's `read` produced: a status and (when the
status is `OK` and the call behaved) a buffer. -/
structure SrcReadResult where
  err : Int
  buf : Option MediaBuffer

/-- Observable outcome of one `PrefetchedSource::cacheMore` call:
which seek-to option was passed to the wrapped source's `read` (if it was
called at all), how many times the wrapped source's `read` was invoked,
whether `mCondition.signal()` ran, and the resulting state (`none` models
a `CHECK` abort). -/
structure CacheMoreOut where
  passedSeek : Option Int
  srcCalls : Nat
  signalled : Bool
  state : Option PSState
deriving DecidableEq

/-- `PrefetchedSource::cacheMore`.  `src` is the wrapped source's `read`,
as a function of the seek-to option placed in the `ReadOptions`. -/
def cacheMore (s : PSState) (src : Option Int → SrcReadResult) : CacheMoreOut :=
  if !s.mStarted then
    { passedSeek := none, srcCalls := 0, signalled := false, state := some s }
  else
    let p : Option Int × PSState :=
      if s.mSeekTimeUs ≥ 0 then (some s.mSeekTimeUs, { s with mSeekTimeUs := -1 })
      else (none, s)
    let opt := p.1
    let s1 := p.2
    let r := src opt
    if r.err ≠ 0 then
      { passedSeek := opt, srcCalls := 1, signalled := true,
        state := some { s1 with mReachedEOS := true } }
    else
      match r.buf with
      | none => { passedSeek := opt, srcCalls := 1, signalled := false, state := none }
      | some buffer =>
        let q := s1.mCachedBuffers ++ [copyBuffer buffer]
        match updateCacheDuration_l q with
        | none => { passedSeek := opt, srcCalls := 1, signalled := false, state := none }
        | some d =>
          { passedSeek := opt, srcCalls := 1, signalled := true,
            state := some { s1 with mCachedBuffers := q, mCacheDurationUs := d } }

/-- `PrefetchedSource::onPrefetcherStopped`: sets the flag and signals;
the boolean records that `mCondition.signal()` ran. -/
def onPrefetcherStopped (s : PSState) : PSState × Bool :=
  ({ s with mPrefetcherStopped := true }, true)

/-- A registry snapshot: `mSources` with each weak reference resolved
(`some`) or not (`none`). -/
abbrev Registry := List (Option PSState)

/-- One step of the selection scan in `Prefetcher::threadFunc` (and the
identical scan in `Prefetcher::getCachedDurationUs`): skip unresolvable
entries, entries not caching, and entries at or above the ceiling;
otherwise keep the entry iff there is no incumbent or it is strictly
smaller. -/
def selStep (i : Nat) (acc : Option (Nat × Int)) (src : Option PSState) :
    Option (Nat × Int) :=
  match src with
  | none => acc
  | some s =>
    let c := getCacheDurationUs s
    if c.1 = false then acc
    else if c.2 ≥ kMaxCacheDurationUs then acc
    else
      match acc with
      | none => some (i, c.2)
      | some (_, minD) => if c.2 < minD then some (i, c.2) else acc

/-- The selection scan over the registry, starting at index `i` with
incumbent `acc`. -/
def selectLoop : Registry → Nat → Option (Nat × Int) → Option (Nat × Int)
  | [], _, acc => acc
  | src :: rest, i, acc => selectLoop rest (i + 1) (selStep i acc src)

/-- The scan of one `Prefetcher::threadFunc` cycle: `some (minIndex,
minCacheDurationUs)` when an eligible source was found, `none` otherwise
(in which case the cycle fetches nothing). -/
def threadFuncSelect (sources : Registry) : Option (Nat × Int) :=
  selectLoop sources 0 none

/-- A cache is eligible for fetching: it reports itself caching (started
and not at EOS) and its duration is strictly below the ceiling. -/
def eligible (s : PSState) : Bool :=
  (getCacheDurationUs s).1 && decide ((getCacheDurationUs s).2 < kMaxCacheDurationUs)

/-- Registry entry `k` resolves to an eligible cache `s`. -/
def EligAt (l : Registry) (k : Nat) (s : PSState) : Prop :=
  l[k]? = some (some s) ∧ eligible s = true

/-- `Prefetcher::getCachedDurationUs`: the same scan, then
`*noMoreData = minCacheDurationUs < 0` and
`return minCacheDurationUs < 0 ? 0 : minCacheDurationUs`. -/
def getCachedDurationUs (sources : Registry) : Int × Bool :=
  match threadFuncSelect sources with
  | none => (0, true)
  | some (_, d) => if d < 0 then (0, true) else (d, false)

/-- `Prefetcher::prepare`: repeat `getCachedDurationUs` while
`!noMoreData && duration < 2000000`, then `return OK`.  The argument is
the sequence of registry snapshots the loop observes; `none` means the
loop was still running when the trace ran out. -/
def prepareLoop : List Registry → Option Int
  | [] => none
  | reg :: rest =>
    let r := getCachedDurationUs reg
    if r.2 = false ∧ r.1 < 2000000 then prepareLoop rest else some 0

/-- The notification pass at the end of `Prefetcher::threadFunc` after
`mDone` was observed: every still-resolvable source gets
`onPrefetcherStopped`. -/
def shutdownNotify (sources : Registry) : Registry :=
  sources.map fun o => o.map fun s => (onPrefetcherStopped s).1

/-- Every resolvable entry has a nonnegative stored duration (holds in
every run whose sources deliver non-decreasing timestamps). -/
def NonnegDur (reg : Registry) : Prop :=
  ∀ (k : Nat) (s : PSState), reg[k]? = some (some s) → 0 ≤ s.mCacheDurationUs

/-- The seek-to option the next `cacheMore` of a started cache will pass
to the wrapped source (set iff `mSeekTimeUs >= 0`). -/
def pendingOpt (s : PSState) : Option Int :=
  if s.mSeekTimeUs ≥ 0 then some s.mSeekTimeUs else none

/-- The state right after `cacheMore` consumed the pending seek. -/
def afterOpt (s : PSState) : PSState :=
  if s.mSeekTimeUs ≥ 0 then { s with mSeekTimeUs := -1 } else s

/-- Concrete buffers and states used by the witness theorems. -/
def bufA : MediaBuffer :=
  { data := [1, 2], rangeOffset := 0, rangeLength := 2, timeUs := some 1000 }

def bufB : MediaBuffer :=
  { data := [3], rangeOffset := 0, rangeLength := 1, timeUs := some 3000 }

def bufNoTs : MediaBuffer :=
  { data := [7], rangeOffset := 0, rangeLength := 1, timeUs := none }

def demoCache : PSState :=
  { mStarted := true
    mReachedEOS := false
    mSeekTimeUs := -1
    mCacheDurationUs := 2000
    mPrefetcherStopped := false
    mCachedBuffers := [bufA, bufB] }

def demoLow : PSState :=
  { demoCache with mCacheDurationUs := 100, mCachedBuffers := [] }

def demoHigh : PSState :=
  { demoCache with mCacheDurationUs := 5000000, mCachedBuffers := [] }

def demoCeil : PSState :=
  { demoCache with mCacheDurationUs := 10000000, mCachedBuffers := [] }

def demoUnstarted : PSState :=
  { demoCache with mStarted := false, mCachedBuffers := [] }

def demoEOS : PSState :=
  { demoCache with mReachedEOS := true, mCachedBuffers := [] }

def demoReg : Registry :=
  [none, some demoHigh, some demoLow, some demoUnstarted, some demoEOS, some demoCeil]

def srcErr : Option Int → SrcReadResult := fun _ => { err := -1011, buf := none }

def srcOkA : Option Int → SrcReadResult := fun _ => { err := 0, buf := some bufA }

def srcOkNoTs : Option Int → SrcReadResult := fun _ => { err := 0, buf := some bufNoTs }

def demoAfterFetch : PSState :=
  { demoCache with
      mCachedBuffers := [bufA, bufB, copyBuffer bufA]
      mCacheDurationUs := 0 }

def demoSeek7 : PSState := { demoCache with mSeekTimeUs := 7 }

def demoStopped : PSState :=
  { initPrefetchedSource with mStarted := true, mPrefetcherStopped := true }

def demoStoppedBuf : PSState := { demoStopped with mCachedBuffers := [bufA] }

def demoTrace : List Registry := [[some demoLow], [some demoHigh]]

/-- When `updateCacheDuration_l` does not abort, the value it stores is
exactly the spec's duration-accounting rule. -/
theorem updateCacheDuration_l_spec (bufs : List MediaBuffer) (d : Int)
    (h : updateCacheDuration_l bufs = some d) : d = durSpec bufs := by
  unfold updateCacheDuration_l at h
  unfold durSpec
  by_cases hl : bufs.length < 2
  · rw [if_pos hl] at h
    rw [if_pos hl]
    exact (Option.some_inj.mp h).symm
  · rw [if_neg hl] at h
    rw [if_neg hl]
    cases hf : bufs.head?.bind MediaBuffer.timeUs with
    | none => rw [hf] at h; simp at h
    | some f =>
      cases hg : bufs.getLast?.bind MediaBuffer.timeUs with
      | none => rw [hf, hg] at h; simp at h
      | some l =>
        rw [hf, hg] at h
        simp at h
        simp [hf, hg]
        omega

/-- When every queued buffer carries a timestamp, `updateCacheDuration_l`
never aborts and computes the spec's value. -/
theorem updateCacheDuration_l_total (bufs : List MediaBuffer)
    (h : allTs bufs = true) : updateCacheDuration_l bufs = some (durSpec bufs) := by
  unfold updateCacheDuration_l durSpec
  by_cases hl : bufs.length < 2
  · simp [hl]
  · rw [if_neg hl, if_neg hl]
    have hts : ∀ b ∈ bufs, b.timeUs.isSome = true := List.all_eq_true.mp h
    cases hh : bufs.head? with
    | none =>
      rw [List.head?_eq_none_iff] at hh
      subst hh; simp at hl
    | some b =>
      have hb := hts b (List.mem_of_mem_head? hh)
      cases hg : bufs.getLast? with
      | none =>
        rw [List.getLast?_eq_none_iff] at hg
        subst hg; simp at hl
      | some c =>
        have hcm : c ∈ bufs := by
          obtain ⟨hne, rfl⟩ := List.mem_getLast?_eq_getLast hg
          exact List.getLast_mem hne
        have hc := hts c hcm
        obtain ⟨tb, htb⟩ := Option.isSome_iff_exists.mp hb
        obtain ⟨tc, htc⟩ := Option.isSome_iff_exists.mp hc
        simp [htb, htc]

/-- `eligible` unfolded into the three flag conditions of the spec. -/
theorem eligible_iff (s : PSState) :
    eligible s = true ↔
      (s.mStarted = true ∧ s.mReachedEOS = false
        ∧ s.mCacheDurationUs < kMaxCacheDurationUs) := by
  unfold eligible getCacheDurationUs
  by_cases h1 : s.mStarted
  · by_cases h2 : s.mReachedEOS <;> simp [h1, h2]
  · simp [h1]

/-- `eligible` in terms of the probe `getCacheDurationUs`. -/
theorem eligible_iff_probe (s : PSState) :
    eligible s = true ↔
      ((getCacheDurationUs s).1 = true
        ∧ (getCacheDurationUs s).2 < kMaxCacheDurationUs) := by
  unfold eligible
  simp

/-- When the probe reports the cache as caching, the reported duration is
the stored `mCacheDurationUs`. -/
theorem getCacheDurationUs_val (s : PSState)
    (h : (getCacheDurationUs s).1 = true) :
    (getCacheDurationUs s).2 = s.mCacheDurationUs := by
  unfold getCacheDurationUs at h ⊢
  by_cases h1 : !s.mStarted || s.mReachedEOS
  · rw [if_pos h1] at h; simp at h
  · rw [if_neg h1]

/-- An ineligible entry never changes the scan's incumbent. -/
theorem selStep_inelig (i : Nat) (acc : Option (Nat × Int)) (s : PSState)
    (h : eligible s = false) : selStep i acc (some s) = acc := by
  unfold selStep
  by_cases h1 : (getCacheDurationUs s).1 = false
  · simp [h1]
  · have h1t : (getCacheDurationUs s).1 = true := by
      cases hb : (getCacheDurationUs s).1
      · exact absurd hb h1
      · rfl
    have h2 : (getCacheDurationUs s).2 ≥ kMaxCacheDurationUs := by
      by_contra hc
      have : eligible s = true := (eligible_iff_probe s).mpr ⟨h1t, by omega⟩
      rw [this] at h; exact absurd h (by simp)
    simp [h1, h2]

/-- An eligible entry replaces an absent incumbent. -/
theorem selStep_elig_none (i : Nat) (s : PSState) (h : eligible s = true) :
    selStep i none (some s) = some (i, s.mCacheDurationUs) := by
  obtain ⟨h1, h2⟩ := (eligible_iff_probe s).mp h
  have hv := getCacheDurationUs_val s h1
  simp only [selStep, h1, hv]
  simp [not_le.mpr (hv ▸ h2)]

/-- An eligible entry strictly smaller than the incumbent replaces it. -/
theorem selStep_elig_lt (i j0 : Nat) (d0 : Int) (s : PSState)
    (h : eligible s = true) (hlt : s.mCacheDurationUs < d0) :
    selStep i (some (j0, d0)) (some s) = some (i, s.mCacheDurationUs) := by
  obtain ⟨h1, h2⟩ := (eligible_iff_probe s).mp h
  have hv := getCacheDurationUs_val s h1
  simp only [selStep, h1, hv]
  simp [not_le.mpr (hv ▸ h2), hlt]

/-- An eligible entry not strictly smaller than the incumbent is ignored. -/
theorem selStep_elig_ge (i j0 : Nat) (d0 : Int) (s : PSState)
    (h : eligible s = true) (hge : ¬ s.mCacheDurationUs < d0) :
    selStep i (some (j0, d0)) (some s) = some (j0, d0) := by
  obtain ⟨h1, h2⟩ := (eligible_iff_probe s).mp h
  have hv := getCacheDurationUs_val s h1
  simp only [selStep, h1, hv]
  simp [not_le.mpr (hv ▸ h2), hge]

/-- `selStep` keeps a present incumbent present. -/
theorem selStep_isSome (i : Nat) (p : Nat × Int) (o : Option PSState) :
    ∃ q, selStep i (some p) o = some q := by
  obtain ⟨j0, d0⟩ := p
  cases o with
  | none => exact ⟨(j0, d0), rfl⟩
  | some s =>
    by_cases h : eligible s = true
    · by_cases hlt : s.mCacheDurationUs < d0
      · exact ⟨(i, s.mCacheDurationUs), selStep_elig_lt i j0 d0 s h hlt⟩
      · exact ⟨(j0, d0), selStep_elig_ge i j0 d0 s h hlt⟩
    · exact ⟨(j0, d0), selStep_inelig i _ s (by simpa using h)⟩

/-- An eligible entry makes `selStep`'s result present. -/
theorem selStep_isSome_of_elig (i : Nat) (acc : Option (Nat × Int)) (s : PSState)
    (h : eligible s = true) : ∃ q, selStep i acc (some s) = some q := by
  cases acc with
  | none => exact ⟨(i, s.mCacheDurationUs), selStep_elig_none i s h⟩
  | some p => exact selStep_isSome i p (some s)

/-- A present incumbent makes the whole scan's result present. -/
theorem selectLoop_isSome_of_acc (l : Registry) :
    ∀ (i : Nat) (p : Nat × Int), ∃ q, selectLoop l i (some p) = some q := by
  induction l with
  | nil => intro i p; exact ⟨p, rfl⟩
  | cons o rest ih =>
    intro i p
    obtain ⟨q, hq⟩ := selStep_isSome i p o
    rw [selectLoop, hq]
    exact ih (i + 1) q

/-- An eligible entry anywhere in the registry makes the scan select
something. -/
theorem selectLoop_isSome_of_elig (l : Registry) :
    ∀ (i : Nat) (acc : Option (Nat × Int)) (k : Nat) (s : PSState),
      EligAt l k s → ∃ q, selectLoop l i acc = some q := by
  induction l with
  | nil =>
    intro i acc k s h
    obtain ⟨h1, _⟩ := h
    simp at h1
  | cons o rest ih =>
    intro i acc k s h
    obtain ⟨h1, h2⟩ := h
    cases k with
    | zero =>
      simp at h1
      subst h1
      obtain ⟨q, hq⟩ := selStep_isSome_of_elig i acc s h2
      rw [selectLoop, hq]
      exact selectLoop_isSome_of_acc rest (i + 1) q
    | succ k =>
      simp at h1
      rw [selectLoop]
      exact ih (i + 1) _ k s ⟨h1, h2⟩

/-- Registry entry 0 of a cons cell. -/
theorem EligAt_cons_zero (o : Option PSState) (rest : Registry) (s : PSState) :
    EligAt (o :: rest) 0 s ↔ (o = some s ∧ eligible s = true) := by
  unfold EligAt
  simp

/-- Registry entry `k+1` of a cons cell. -/
theorem EligAt_cons_succ (o : Option PSState) (rest : Registry) (k : Nat) (s : PSState) :
    EligAt (o :: rest) (k + 1) s ↔ EligAt rest k s := by
  unfold EligAt
  simp

/-- Full characterization of the selection scan: either the incumbent
survives and every eligible entry of the scanned list has a duration at
least as large, or the result is an eligible entry of the list that is
strictly smaller than the incumbent, minimal among all eligible entries,
and first among the minimal ones. -/
theorem selectLoop_spec (l : Registry) :
    ∀ (i : Nat) (acc : Option (Nat × Int)) (j : Nat) (d : Int),
      selectLoop l i acc = some (j, d) →
      (acc = some (j, d)
        ∧ ∀ (k : Nat) (s : PSState), EligAt l k s → d ≤ s.mCacheDurationUs)
      ∨ (∃ (k : Nat) (s : PSState), l[k]? = some (some s) ∧ eligible s = true
          ∧ j = i + k ∧ d = s.mCacheDurationUs
          ∧ (∀ (j0 : Nat) (d0 : Int), acc = some (j0, d0) → d < d0)
          ∧ (∀ (k2 : Nat) (s2 : PSState), EligAt l k2 s2 →
              d ≤ s2.mCacheDurationUs ∧ (s2.mCacheDurationUs = d → k ≤ k2))) := by
  induction l with
  | nil =>
    intro i acc j d h
    left
    refine ⟨h, ?_⟩
    intro k s hk
    obtain ⟨h1, _⟩ := hk
    simp at h1
  | cons o rest ih =>
    intro i acc j d h
    rw [selectLoop] at h
    rcases ih (i + 1) (selStep i acc o) j d h with ⟨ha, hmin⟩ | hright
    · -- the incumbent after the head step survived the rest of the scan
      by_cases helig : ∃ s0, o = some s0 ∧ eligible s0 = true
      · obtain ⟨s0, rfl, hel⟩ := helig
        cases hacc : acc with
        | none =>
          rw [hacc, selStep_elig_none i s0 hel] at ha
          obtain ⟨hj, hd⟩ : j = i ∧ d = s0.mCacheDurationUs := by
            constructor <;> · injection ha with ha2; cases ha2; rfl
          right
          refine ⟨0, s0, by simp, hel, by omega, hd, by simp, ?_⟩
          intro k2 s2 hk2
          cases k2 with
          | zero =>
            obtain ⟨he, _⟩ := (EligAt_cons_zero _ _ _).mp hk2
            obtain rfl : s0 = s2 := by injection he
            exact ⟨le_of_eq hd, fun _ => Nat.le_refl 0⟩
          | succ k2 =>
            exact ⟨hmin k2 s2 ((EligAt_cons_succ _ _ _ _).mp hk2), fun _ => Nat.zero_le _⟩
        | some p =>
          obtain ⟨j0, d0⟩ := p
          by_cases hlt : s0.mCacheDurationUs < d0
          · rw [hacc, selStep_elig_lt i j0 d0 s0 hel hlt] at ha
            obtain ⟨hj, hd⟩ : j = i ∧ d = s0.mCacheDurationUs := by
              constructor <;> · injection ha with ha2; cases ha2; rfl
            right
            refine ⟨0, s0, by simp, hel, by omega, hd, ?_, ?_⟩
            · intro j1 d1 he
              obtain ⟨rfl, rfl⟩ : j0 = j1 ∧ d0 = d1 := by
                constructor <;> · injection he with he2; cases he2; rfl
              omega
            · intro k2 s2 hk2
              cases k2 with
              | zero =>
                obtain ⟨he, _⟩ := (EligAt_cons_zero _ _ _).mp hk2
                obtain rfl : s0 = s2 := by injection he
                exact ⟨le_of_eq hd, fun _ => Nat.le_refl 0⟩
              | succ k2 =>
                exact ⟨hmin k2 s2 ((EligAt_cons_succ _ _ _ _).mp hk2),
                  fun _ => Nat.zero_le _⟩
          · rw [hacc, selStep_elig_ge i j0 d0 s0 hel hlt] at ha
            left
            refine ⟨ha, ?_⟩
            intro k2 s2 hk2
            obtain ⟨rfl, rfl⟩ : j0 = j ∧ d0 = d := by
              constructor <;> · injection ha with ha2; cases ha2; rfl
            cases k2 with
            | zero =>
              obtain ⟨he, _⟩ := (EligAt_cons_zero _ _ _).mp hk2
              obtain rfl : s0 = s2 := by injection he
              omega
            | succ k2 =>
              exact hmin k2 s2 ((EligAt_cons_succ _ _ _ _).mp hk2)
      · -- head entry ineligible: the step left the incumbent unchanged
        have hstep : selStep i acc o = acc := by
          cases o with
          | none => rfl
          | some s0 =>
            refine selStep_inelig i acc s0 ?_
            cases hb : eligible s0
            · rfl
            · exact absurd ⟨s0, rfl, hb⟩ helig
        rw [hstep] at ha
        left
        refine ⟨ha, ?_⟩
        intro k2 s2 hk2
        cases k2 with
        | zero =>
          obtain ⟨he, hel2⟩ := (EligAt_cons_zero _ _ _).mp hk2
          exact absurd ⟨s2, he, hel2⟩ helig
        | succ k2 =>
          exact hmin k2 s2 ((EligAt_cons_succ _ _ _ _).mp hk2)
    · -- the result came from an entry of the tail
      obtain ⟨k, s, hget, hel, hj, hd, hlt, hmin⟩ := hright
      right
      refine ⟨k + 1, s, by simpa using hget, hel, by omega, hd, ?_, ?_⟩
      · -- the result is strictly below any original incumbent
        intro j0 d0 hacc
        by_cases helig : ∃ s0, o = some s0 ∧ eligible s0 = true
        · obtain ⟨s0, rfl, hel0⟩ := helig
          by_cases hlt0 : s0.mCacheDurationUs < d0
          · have := hlt i s0.mCacheDurationUs
              (by rw [hacc, selStep_elig_lt i j0 d0 s0 hel0 hlt0])
            omega
          · exact hlt j0 d0 (by rw [hacc, selStep_elig_ge i j0 d0 s0 hel0 hlt0])
        · have hstep : selStep i acc o = acc := by
            cases o with
            | none => rfl
            | some s0 =>
              refine selStep_inelig i acc s0 ?_
              cases hb : eligible s0
              · rfl
              · exact absurd ⟨s0, rfl, hb⟩ helig
          exact hlt j0 d0 (by rw [hstep, hacc])
      · -- minimality and first-wins over the whole cons cell
        intro k2 s2 hk2
        cases k2 with
        | zero =>
          obtain ⟨he, hel2⟩ := (EligAt_cons_zero _ _ _).mp hk2
          subst he
          have hdlt : d < s2.mCacheDurationUs := by
            cases hacc : acc with
            | none =>
              exact hlt i s2.mCacheDurationUs
                (by rw [hacc, selStep_elig_none i s2 hel2])
            | some p =>
              obtain ⟨j0, d0⟩ := p
              by_cases hlt0 : s2.mCacheDurationUs < d0
              · exact hlt i s2.mCacheDurationUs
                  (by rw [hacc, selStep_elig_lt i j0 d0 s2 hel2 hlt0])
              · have := hlt j0 d0 (by rw [hacc, selStep_elig_ge i j0 d0 s2 hel2 hlt0])
                omega
          exact ⟨le_of_lt hdlt, fun hc => absurd hc (by omega)⟩
        | succ k2 =>
          obtain ⟨hle, htie⟩ := hmin k2 s2 ((EligAt_cons_succ _ _ _ _).mp hk2)
          exact ⟨hle, fun hc => by have := htie hc; omega⟩

/-- `read` on an unstarted cache aborts (`CHECK(mStarted)`). -/
theorem read_unstarted (s : PSState) (opt : Option Int)
    (h : s.mStarted = false) : read s opt = .crash := by
  unfold read
  simp [h]

/-- `read` without a seek option blocks exactly when the wait condition
holds, carrying the unchanged state. -/
theorem read_noseek_blocked (s : PSState) (h : s.mStarted = true)
    (hw : waitCond s = true) : read s none = .blocked s := by
  unfold read
  simp [h, hw]

/-- `read` without a seek option on an empty queue, once the wait
condition is false, returns `ERROR_END_OF_STREAM` with no buffer. -/
theorem read_noseek_eos (s : PSState) (h : s.mStarted = true)
    (hw : waitCond s = false) (he : s.mCachedBuffers = []) :
    read s none = .eosR s := by
  unfold read
  simp [h, hw, he]

/-- `read` without a seek option on a non-empty queue pops the oldest
buffer, recomputes the duration, and returns it. -/
theorem read_noseek_pop (s : PSState) (h : s.mStarted = true)
    (b : MediaBuffer) (rest : List MediaBuffer)
    (hq : s.mCachedBuffers = b :: rest) (d : Int)
    (hu : updateCacheDuration_l rest = some d) :
    read s none = .okR b { s with mCachedBuffers := rest, mCacheDurationUs := d } := by
  unfold read
  have hw : waitCond s = false := by
    unfold waitCond
    simp [hq]
  simp [h, hw, hq, hu]

/-- `read` with a nonnegative seek timestamp drains the queue, resets the
duration to 0, clears EOS, records the pending seek, and then waits
(unless the prefetcher already stopped, in which case the now-empty queue
makes it return end-of-stream). -/
theorem read_seek (s : PSState) (t : Int) (h : s.mStarted = true) (ht : 0 ≤ t) :
    read s (some t) =
      (if s.mPrefetcherStopped = true
        then ReadResult.eosR { clearCache_l s with mReachedEOS := false, mSeekTimeUs := t }
        else ReadResult.blocked { clearCache_l s with mReachedEOS := false, mSeekTimeUs := t }) := by
  unfold read
  have hnt : ¬ t < 0 := by omega
  cases hp : s.mPrefetcherStopped with
  | true => simp [h, hnt, waitCond, clearCache_l, hp]
  | false => simp [h, hnt, waitCond, clearCache_l, hp]

/-- `read` with a negative seek timestamp aborts (`CHECK(seekTimeUs >= 0)`). -/
theorem read_seek_neg (s : PSState) (t : Int) (h : s.mStarted = true)
    (ht : t < 0) : read s (some t) = .crash := by
  unfold read
  simp [h, ht]

/-- `cacheMore` on an unstarted cache does nothing and never calls the
wrapped source. -/
theorem cacheMore_unstarted (s : PSState) (src : Option Int → SrcReadResult)
    (h : s.mStarted = false) :
    cacheMore s src =
      { passedSeek := none, srcCalls := 0, signalled := false, state := some s } := by
  unfold cacheMore
  simp [h]

/-- `cacheMore` when the wrapped source's `read` fails: the pending seek
(if any) was consumed, the source was called exactly once with that seek
option, EOS is recorded, waiters are signalled, and the queue is untouched. -/
theorem cacheMore_err (s : PSState) (src : Option Int → SrcReadResult)
    (h : s.mStarted = true) (he : (src (pendingOpt s)).err ≠ 0) :
    cacheMore s src =
      { passedSeek := pendingOpt s, srcCalls := 1, signalled := true,
        state := some { afterOpt s with mReachedEOS := true } } := by
  unfold cacheMore
  by_cases hs : s.mSeekTimeUs ≥ 0
  · rw [pendingOpt, if_pos hs] at he
    simp [h, hs, he, pendingOpt, afterOpt]
  · rw [pendingOpt, if_neg hs] at he
    simp [h, hs, he, pendingOpt, afterOpt]

/-- `cacheMore` when the wrapped source's `read` succeeds and the copy's
duration recomputation does not abort: the copy is appended, the duration
is recomputed, waiters are signalled. -/
theorem cacheMore_ok (s : PSState) (src : Option Int → SrcReadResult)
    (b : MediaBuffer) (d : Int) (h : s.mStarted = true)
    (he : (src (pendingOpt s)).err = 0) (hb : (src (pendingOpt s)).buf = some b)
    (hu : updateCacheDuration_l (s.mCachedBuffers ++ [copyBuffer b]) = some d) :
    cacheMore s src =
      { passedSeek := pendingOpt s, srcCalls := 1, signalled := true,
        state := some { afterOpt s with
          mCachedBuffers := s.mCachedBuffers ++ [copyBuffer b],
          mCacheDurationUs := d } } := by
  unfold cacheMore
  by_cases hs : s.mSeekTimeUs ≥ 0
  · rw [pendingOpt, if_pos hs] at he hb
    simp [h, hs, he, hb, hu, pendingOpt, afterOpt]
  · rw [pendingOpt, if_neg hs] at he hb
    simp [h, hs, he, hb, hu, pendingOpt, afterOpt]

/-- `cacheMore` when the wrapped source's `read` succeeds but the
appended copy makes the duration recomputation abort. -/
theorem cacheMore_ok_crash (s : PSState) (src : Option Int → SrcReadResult)
    (b : MediaBuffer) (h : s.mStarted = true)
    (he : (src (pendingOpt s)).err = 0) (hb : (src (pendingOpt s)).buf = some b)
    (hu : updateCacheDuration_l (s.mCachedBuffers ++ [copyBuffer b]) = none) :
    cacheMore s src =
      { passedSeek := pendingOpt s, srcCalls := 1, signalled := false,
        state := none } := by
  unfold cacheMore
  by_cases hs : s.mSeekTimeUs ≥ 0
  · rw [pendingOpt, if_pos hs] at he hb
    simp [h, hs, he, hb, hu, pendingOpt]
  · rw [pendingOpt, if_neg hs] at he hb
    simp [h, hs, he, hb, hu, pendingOpt]

/-- `cacheMore` when the wrapped source's `read` claims success but hands
back no buffer (`CHECK(buffer != NULL)`). -/
theorem cacheMore_nullbuf (s : PSState) (src : Option Int → SrcReadResult)
    (h : s.mStarted = true)
    (he : (src (pendingOpt s)).err = 0) (hb : (src (pendingOpt s)).buf = none) :
    cacheMore s src =
      { passedSeek := pendingOpt s, srcCalls := 1, signalled := false,
        state := none } := by
  unfold cacheMore
  by_cases hs : s.mSeekTimeUs ≥ 0
  · rw [pendingOpt, if_pos hs] at he hb
    simp [h, hs, he, hb, pendingOpt]
  · rw [pendingOpt, if_neg hs] at he hb
    simp [h, hs, he, hb, pendingOpt]

/-- The fields of `afterOpt` other than the pending seek are untouched. -/
theorem afterOpt_fields (s : PSState) :
    (afterOpt s).mStarted = s.mStarted
    ∧ (afterOpt s).mReachedEOS = s.mReachedEOS
    ∧ (afterOpt s).mCachedBuffers = s.mCachedBuffers
    ∧ (afterOpt s).mCacheDurationUs = s.mCacheDurationUs
    ∧ (afterOpt s).mPrefetcherStopped = s.mPrefetcherStopped := by
  unfold afterOpt
  by_cases hs : s.mSeekTimeUs ≥ 0 <;> simp [hs]

/-- After `afterOpt`, the pending seek is `-1` exactly when it was set. -/
theorem afterOpt_seek (s : PSState) :
    (afterOpt s).mSeekTimeUs = if s.mSeekTimeUs ≥ 0 then -1 else s.mSeekTimeUs := by
  unfold afterOpt
  by_cases hs : s.mSeekTimeUs ≥ 0 <;> simp [hs]

/-- On a started cache, `cacheMore` always calls the wrapped source
exactly once, passing the pending seek option, and every non-aborting
outcome has consumed the pending seek. -/
theorem cacheMore_shape (s : PSState) (src : Option Int → SrcReadResult)
    (h : s.mStarted = true) :
    (cacheMore s src).passedSeek = pendingOpt s
    ∧ (cacheMore s src).srcCalls = 1
    ∧ ∀ s2 : PSState, (cacheMore s src).state = some s2 →
        s2.mSeekTimeUs = (afterOpt s).mSeekTimeUs := by
  by_cases he : (src (pendingOpt s)).err = 0
  · cases hb : (src (pendingOpt s)).buf with
    | none =>
      rw [cacheMore_nullbuf s src h he hb]
      exact ⟨rfl, rfl, fun s2 h2 => by simp at h2⟩
    | some b =>
      cases hu : updateCacheDuration_l (s.mCachedBuffers ++ [copyBuffer b]) with
      | none =>
        rw [cacheMore_ok_crash s src b h he hb hu]
        exact ⟨rfl, rfl, fun s2 h2 => by simp at h2⟩
      | some d =>
        rw [cacheMore_ok s src b d h he hb hu]
        refine ⟨rfl, rfl, fun s2 h2 => ?_⟩
        have : s2 = { afterOpt s with
            mCachedBuffers := s.mCachedBuffers ++ [copyBuffer b],
            mCacheDurationUs := d } := by
          simpa using h2.symm
        rw [this]
  · rw [cacheMore_err s src h he]
    refine ⟨rfl, rfl, fun s2 h2 => ?_⟩
    have : s2 = { afterOpt s with mReachedEOS := true } := by
      simpa using h2.symm
    rw [this]

/-- `read` popping a queue whose remainder defeats the duration
recomputation aborts (`CHECK` in `updateCacheDuration_l`). -/
theorem read_noseek_pop_crash (s : PSState) (h : s.mStarted = true)
    (b : MediaBuffer) (rest : List MediaBuffer)
    (hq : s.mCachedBuffers = b :: rest)
    (hu : updateCacheDuration_l rest = none) : read s none = .crash := by
  unfold read
  have hw : waitCond s = false := by
    unfold waitCond
    simp [hq]
  simp [h, hw, hq, hu]

/-- Claim C1: on every worker cycle, if any registry entry resolves to an
eligible cache (started, not at EOS, buffered duration strictly below the
10-second ceiling) then the scan selects exactly one entry; the selected
entry is eligible (so never unstarted, at EOS, or at/above the ceiling),
its stored buffered duration is minimal among all eligible caches, and
ties go to the lowest registration index. -/
theorem C1_selects_least_buffered_eligible (sources : Registry) :
    ((∃ (k : Nat) (s : PSState), EligAt sources k s) →
      ∃ (j : Nat) (d : Int), threadFuncSelect sources = some (j, d)) ∧
    (∀ (j : Nat) (d : Int), threadFuncSelect sources = some (j, d) →
      ∃ s : PSState, sources[j]? = some (some s)
        ∧ s.mStarted = true ∧ s.mReachedEOS = false
        ∧ s.mCacheDurationUs < kMaxCacheDurationUs
        ∧ d = s.mCacheDurationUs
        ∧ ∀ (k : Nat) (t : PSState), EligAt sources k t →
            s.mCacheDurationUs ≤ t.mCacheDurationUs
            ∧ (t.mCacheDurationUs = s.mCacheDurationUs → j ≤ k)) := by
  constructor
  · rintro ⟨k, s, hk⟩
    obtain ⟨⟨j, d⟩, hq⟩ := selectLoop_isSome_of_elig sources 0 none k s hk
    exact ⟨j, d, hq⟩
  · intro j d h
    rcases selectLoop_spec sources 0 none j d h with ⟨ha, _⟩ | hr
    · simp at ha
    · obtain ⟨k, s, hget, hel, hj, hd, _, hmin⟩ := hr
      obtain ⟨h1, h2, h3⟩ := (eligible_iff s).mp hel
      have hjk : j = k := by omega
      refine ⟨s, hjk ▸ hget, h1, h2, h3, hd, ?_⟩
      intro k2 t hk2
      obtain ⟨hle, htie⟩ := hmin k2 t hk2
      rw [← hd]
      exact ⟨hle, fun hc => by have h5 := htie hc; omega⟩

/-- Witness for C1: a registry with an unresolvable entry, an unstarted
cache, a cache at EOS, a cache at the ceiling, and two eligible caches;
the scan picks the eligible one with the smaller duration, at index 2. -/
theorem C1_selects_least_buffered_eligible_witness :
    (∃ (k : Nat) (s : PSState), EligAt demoReg k s) ∧
    (∃ (j : Nat) (d : Int), threadFuncSelect demoReg = some (j, d)) ∧
    (∃ s : PSState, demoReg[2]? = some (some s)
      ∧ s.mStarted = true ∧ s.mReachedEOS = false
      ∧ s.mCacheDurationUs < kMaxCacheDurationUs
      ∧ (100 : Int) = s.mCacheDurationUs
      ∧ ∀ (k : Nat) (t : PSState), EligAt demoReg k t →
          s.mCacheDurationUs ≤ t.mCacheDurationUs
          ∧ (t.mCacheDurationUs = s.mCacheDurationUs → 2 ≤ k)) := by
  have hex : ∃ (k : Nat) (s : PSState), EligAt demoReg k s :=
    ⟨2, demoLow, by constructor <;> decide⟩
  refine ⟨hex, (C1_selects_least_buffered_eligible demoReg).1 hex,
    (C1_selects_least_buffered_eligible demoReg).2 2 100 (by decide)⟩

/-- Claim C7: `start` on a not-started cache forwards the params to the
wrapped source's `start`, returns its error verbatim with the cache left
unchanged (still not started) on failure, and sets the started flag only
on success; `start` on an already-started cache is a `CHECK` violation. -/
theorem C7_start_contract (α : Type) (s : PSState) (srcStart : α → Int) (p : α) :
    (s.mStarted = false →
      (srcStart p ≠ 0 → start s srcStart p = some (srcStart p, s))
      ∧ (srcStart p = 0 → start s srcStart p = some (0, { s with mStarted := true })))
    ∧ (s.mStarted = true → start s srcStart p = none) := by
  unfold start
  constructor
  · intro h
    constructor
    · intro he
      simp [h, he]
    · intro he
      simp [h, he]
  · intro h
    simp [h]

/-- Witness for C7: a failing start (error `-7`) leaves the cache
unstarted, a succeeding one sets the flag, and a double start aborts. -/
theorem C7_start_contract_witness :
    start demoUnstarted (fun x : Int => x) (-7) = some (-7, demoUnstarted)
    ∧ start demoUnstarted (fun x : Int => x) 0 =
        some (0, { demoUnstarted with mStarted := true })
    ∧ start demoCache (fun x : Int => x) 0 = none := by
  refine ⟨((C7_start_contract Int demoUnstarted (fun x => x) (-7)).1 (by decide)).1
      (by decide),
    ((C7_start_contract Int demoUnstarted (fun x => x) 0).1 (by decide)).2 rfl,
    (C7_start_contract Int demoCache (fun x => x) 0).2 (by decide)⟩

/-- Claim C2: the stored buffered duration equals timestamp(newest) minus
timestamp(oldest) when at least two buffers are queued and 0 otherwise,
at construction and immediately after every queue-modifying operation
that completes: a `cacheMore` (append or absorbed error), a `read` pop, a
`read`-carried seek drain (whether the call then waits or reports EOS),
and a `stop` drain. -/
theorem C2_duration_accounting :
    durInv initPrefetchedSource
    ∧ (∀ (s : PSState) (src : Option Int → SrcReadResult) (s2 : PSState),
        durInv s → (cacheMore s src).state = some s2 → durInv s2)
    ∧ (∀ (s s2 : PSState) (opt : Option Int) (b : MediaBuffer),
        read s opt = .okR b s2 → durInv s2)
    ∧ (∀ (s s2 : PSState) (opt : Option Int), durInv s →
        (read s opt = .blocked s2 ∨ read s opt = .eosR s2) → durInv s2)
    ∧ (∀ (s s2 : PSState) (e r : Int), stop s e = some (r, s2) → durInv s2) := by
  refine ⟨by decide, ?_, ?_, ?_, ?_⟩
  · -- cacheMore
    intro s src s2 hinv h
    cases hst : s.mStarted with
    | false =>
      rw [cacheMore_unstarted s src hst] at h
      simp at h
      rw [← h]
      exact hinv
    | true =>
      by_cases he : (src (pendingOpt s)).err = 0
      · cases hb : (src (pendingOpt s)).buf with
        | none =>
          rw [cacheMore_nullbuf s src hst he hb] at h
          simp at h
        | some b =>
          cases hu : updateCacheDuration_l (s.mCachedBuffers ++ [copyBuffer b]) with
          | none =>
            rw [cacheMore_ok_crash s src b hst he hb hu] at h
            simp at h
          | some d =>
            rw [cacheMore_ok s src b d hst he hb hu] at h
            simp at h
            rw [← h]
            unfold durInv
            simp [(afterOpt_fields s).2.2.1]
            exact updateCacheDuration_l_spec _ d hu
      · rw [cacheMore_err s src hst he] at h
        simp at h
        rw [← h]
        unfold durInv at hinv ⊢
        simp [(afterOpt_fields s).2.2.1, (afterOpt_fields s).2.2.2.1]
        exact hinv
  · -- read pop
    intro s s2 opt b h
    cases hst : s.mStarted with
    | false =>
      rw [read_unstarted s opt hst] at h
      simp at h
    | true =>
      cases opt with
      | none =>
        cases hw : waitCond s with
        | true =>
          rw [read_noseek_blocked s hst hw] at h
          simp at h
        | false =>
          cases hq : s.mCachedBuffers with
          | nil =>
            rw [read_noseek_eos s hst hw hq] at h
            simp at h
          | cons b0 rest =>
            cases hu : updateCacheDuration_l rest with
            | none =>
              rw [read_noseek_pop_crash s hst b0 rest hq hu] at h
              simp at h
            | some d =>
              rw [read_noseek_pop s hst b0 rest hq d hu] at h
              injection h with h1 h2
              rw [← h2]
              unfold durInv
              simp
              exact updateCacheDuration_l_spec rest d hu
      | some t =>
        by_cases ht : t < 0
        · rw [read_seek_neg s t hst ht] at h
          simp at h
        · rw [read_seek s t hst (by omega)] at h
          by_cases hp : s.mPrefetcherStopped = true
          · rw [if_pos hp] at h
            simp at h
          · rw [if_neg hp] at h
            simp at h
  · -- read wait or EOS (including the seek-drained queue)
    intro s s2 opt hinv h
    cases hst : s.mStarted with
    | false =>
      rw [read_unstarted s opt hst] at h
      rcases h with h | h <;> simp at h
    | true =>
      cases opt with
      | none =>
        cases hw : waitCond s with
        | true =>
          rw [read_noseek_blocked s hst hw] at h
          rcases h with h | h
          · injection h with h1
            rw [← h1]
            exact hinv
          · simp at h
        | false =>
          cases hq : s.mCachedBuffers with
          | nil =>
            rw [read_noseek_eos s hst hw hq] at h
            rcases h with h | h
            · simp at h
            · injection h with h1
              rw [← h1]
              exact hinv
          | cons b0 rest =>
            cases hu : updateCacheDuration_l rest with
            | none =>
              rw [read_noseek_pop_crash s hst b0 rest hq hu] at h
              rcases h with h | h <;> simp at h
            | some d =>
              rw [read_noseek_pop s hst b0 rest hq d hu] at h
              rcases h with h | h <;> simp at h
      | some t =>
        by_cases ht : t < 0
        · rw [read_seek_neg s t hst ht] at h
          rcases h with h | h <;> simp at h
        · rw [read_seek s t hst (by omega)] at h
          by_cases hp : s.mPrefetcherStopped = true
          · rw [if_pos hp] at h
            rcases h with h | h
            · simp at h
            · injection h with h1
              rw [← h1]
              unfold durInv
              simp [clearCache_l, durSpec, updateCacheDuration_l]
          · rw [if_neg hp] at h
            rcases h with h | h
            · injection h with h1
              rw [← h1]
              unfold durInv
              simp [clearCache_l, durSpec, updateCacheDuration_l]
            · simp at h
  · -- stop drain
    intro s s2 e r h
    unfold stop at h
    cases hst : s.mStarted with
    | false => simp [hst] at h
    | true =>
      simp [hst] at h
      rw [← h.2]
      unfold durInv
      simp [clearCache_l, durSpec, updateCacheDuration_l]

/-- Witness for C2: a fetch appending a copy of `bufA` (timestamp 1000)
behind buffers at 1000 and 3000 leaves a stored duration of 0, matching
the rule on the new queue. -/
theorem C2_duration_accounting_witness :
    durInv demoCache
    ∧ (cacheMore demoCache srcOkA).state = some demoAfterFetch
    ∧ durInv demoAfterFetch :=
  ⟨by decide, by decide,
    C2_duration_accounting.2.1 demoCache srcOkA demoAfterFetch (by decide) (by decide)⟩

/-- Claim C3: a `read` carrying a seek-to timestamp `T >= 0` on a started
cache discards the whole queue, resets the duration to 0, clears EOS, and
records `T` as pending; the next `cacheMore` passes `T` as the seek
option of its single source read and clears the pending seek to `-1`, and
a `cacheMore` whose pending seek is `-1` passes no seek option. -/
theorem C3_seek_drain_single_application :
    (∀ (s : PSState) (t : Int), s.mStarted = true → 0 ≤ t →
      ∃ s1 : PSState,
        (read s (some t) = .blocked s1 ∨ read s (some t) = .eosR s1)
        ∧ s1.mCachedBuffers = [] ∧ s1.mCacheDurationUs = 0
        ∧ s1.mReachedEOS = false ∧ s1.mSeekTimeUs = t)
    ∧ (∀ (s : PSState) (src : Option Int → SrcReadResult) (t : Int),
        s.mStarted = true → s.mSeekTimeUs = t → 0 ≤ t →
        (cacheMore s src).passedSeek = some t
        ∧ (cacheMore s src).srcCalls = 1
        ∧ ∀ s2 : PSState, (cacheMore s src).state = some s2 → s2.mSeekTimeUs = -1)
    ∧ (∀ (s : PSState) (src : Option Int → SrcReadResult),
        s.mStarted = true → s.mSeekTimeUs = -1 →
        (cacheMore s src).passedSeek = none
        ∧ ∀ s2 : PSState, (cacheMore s src).state = some s2 → s2.mSeekTimeUs = -1) := by
  refine ⟨?_, ?_, ?_⟩
  · intro s t hst ht
    refine ⟨{ clearCache_l s with mReachedEOS := false, mSeekTimeUs := t },
      ?_, ?_, ?_, rfl, rfl⟩
    · rw [read_seek s t hst ht]
      by_cases hp : s.mPrefetcherStopped = true
      · rw [if_pos hp]
        right
        rfl
      · rw [if_neg hp]
        left
        rfl
    · rfl
    · rfl
  · intro s src t hst hseek ht
    obtain ⟨hp, hc, hs⟩ := cacheMore_shape s src hst
    have hge : s.mSeekTimeUs ≥ 0 := by omega
    refine ⟨?_, hc, ?_⟩
    · rw [hp]
      unfold pendingOpt
      rw [if_pos hge, hseek]
    · intro s2 h2
      rw [hs s2 h2, afterOpt_seek, if_pos hge]
  · intro s src hst hseek
    obtain ⟨hp, _, hs⟩ := cacheMore_shape s src hst
    have hge : ¬ s.mSeekTimeUs ≥ 0 := by omega
    refine ⟨?_, ?_⟩
    · rw [hp]
      unfold pendingOpt
      rw [if_neg hge]
    · intro s2 h2
      rw [hs s2 h2, afterOpt_seek, if_neg hge, hseek]

/-- Witness for C3: seeking to 7 on a cache holding two buffers drains it
and records the pending seek; the next fetch passes seek-to-7. -/
theorem C3_seek_drain_single_application_witness :
    (∃ s1 : PSState,
      (read demoCache (some 7) = .blocked s1 ∨ read demoCache (some 7) = .eosR s1)
      ∧ s1.mCachedBuffers = [] ∧ s1.mCacheDurationUs = 0
      ∧ s1.mReachedEOS = false ∧ s1.mSeekTimeUs = 7)
    ∧ (cacheMore demoSeek7 srcOkA).passedSeek = some 7
    ∧ (cacheMore demoCache srcOkA).passedSeek = none := by
  refine ⟨C3_seek_drain_single_application.1 demoCache 7 (by decide) (by decide),
    (C3_seek_drain_single_application.2.1 demoSeek7 srcOkA 7 (by decide) (by decide)
      (by decide)).1,
    (C3_seek_drain_single_application.2.2 demoCache srcOkA (by decide) (by decide)).1⟩

/-- Claim C4: on a started cache, a plain `read` waits exactly when the
queue is empty, EOS is not recorded, and the prefetcher has not stopped;
once the wait condition fails it returns end-of-stream (no buffer) when
the queue is empty, and otherwise pops and returns the oldest buffer
(FIFO), recomputing the duration, with success. -/
theorem C4_read_block_eos_pop :
    (∀ s : PSState, s.mStarted = true → (read s none = .blocked s ↔ waitCond s = true))
    ∧ (∀ s : PSState, waitCond s = true ↔
        (s.mCachedBuffers.isEmpty = true ∧ s.mReachedEOS = false
          ∧ s.mPrefetcherStopped = false))
    ∧ (∀ s : PSState, s.mStarted = true → waitCond s = false →
        s.mCachedBuffers = [] → read s none = .eosR s)
    ∧ (∀ (s : PSState) (b : MediaBuffer) (rest : List MediaBuffer),
        s.mStarted = true → s.mCachedBuffers = b :: rest → allTs rest = true →
        read s none =
          .okR b { s with mCachedBuffers := rest, mCacheDurationUs := durSpec rest }) := by
  refine ⟨?_, ?_, ?_, ?_⟩
  · intro s hst
    constructor
    · intro h
      cases hw : waitCond s with
      | true => rfl
      | false =>
        exfalso
        cases hq : s.mCachedBuffers with
        | nil =>
          rw [read_noseek_eos s hst hw hq] at h
          simp at h
        | cons b0 rest =>
          cases hu : updateCacheDuration_l rest with
          | none =>
            rw [read_noseek_pop_crash s hst b0 rest hq hu] at h
            simp at h
          | some d =>
            rw [read_noseek_pop s hst b0 rest hq d hu] at h
            simp at h
    · exact read_noseek_blocked s hst
  · intro s
    unfold waitCond
    cases hp : s.mPrefetcherStopped <;> cases he : s.mReachedEOS <;>
      cases hq : s.mCachedBuffers.isEmpty <;> simp [hp, he, hq]
  · exact read_noseek_eos
  · intro s b rest hst hq hts
    exact read_noseek_pop s hst b rest hq _ (updateCacheDuration_l_total rest hts)

/-- Witness for C4: popping from a two-buffer queue returns the oldest
buffer and leaves a recomputed (zero) duration. -/
theorem C4_read_block_eos_pop_witness :
    read demoCache none =
      .okR bufA { demoCache with
        mCachedBuffers := [bufB]
        mCacheDurationUs := durSpec [bufB] } :=
  C4_read_block_eos_pop.2.2.2 demoCache bufA [bufB] (by decide) (by decide) (by decide)

/-- Claim C5: when the wrapped source's read fails, `cacheMore` calls the
source exactly once (no retry), records end-of-stream, signals waiters,
leaves the queue untouched, and still produces a state (the fetch has no
error channel to the scheduler). -/
theorem C5_fetch_error_absorbed (s : PSState) (src : Option Int → SrcReadResult)
    (hst : s.mStarted = true) (he : (src (pendingOpt s)).err ≠ 0) :
    (cacheMore s src).srcCalls = 1
    ∧ (cacheMore s src).signalled = true
    ∧ (cacheMore s src).state = some { afterOpt s with mReachedEOS := true }
    ∧ ({ afterOpt s with mReachedEOS := true } : PSState).mReachedEOS = true
    ∧ ({ afterOpt s with mReachedEOS := true } : PSState).mCachedBuffers
        = s.mCachedBuffers := by
  rw [cacheMore_err s src hst he]
  exact ⟨rfl, rfl, rfl, rfl, (afterOpt_fields s).2.2.1⟩

/-- Witness for C5 on a concrete failing source. -/
theorem C5_fetch_error_absorbed_witness :
    (cacheMore demoCache srcErr).srcCalls = 1
    ∧ (cacheMore demoCache srcErr).signalled = true
    ∧ (cacheMore demoCache srcErr).state
        = some { afterOpt demoCache with mReachedEOS := true }
    ∧ ({ afterOpt demoCache with mReachedEOS := true } : PSState).mReachedEOS = true
    ∧ ({ afterOpt demoCache with mReachedEOS := true } : PSState).mCachedBuffers
        = demoCache.mCachedBuffers :=
  C5_fetch_error_absorbed demoCache srcErr (by decide) (by decide)

/-- Claim C6: the notification pass after the worker exits sets the
prefetcher-stopped flag of every still-resolvable cache and signals its
waiters; from then on a `read` on a started cache with an empty queue
returns end-of-stream instead of waiting (even for a cache never
fetched), while a `read` on a cache with queued buffers still pops them. -/
theorem C6_shutdown_unblocks_readers :
    (∀ (sources : Registry) (j : Nat) (s : PSState),
      (shutdownNotify sources)[j]? = some (some s) → s.mPrefetcherStopped = true)
    ∧ (∀ (sources : Registry) (j : Nat) (s : PSState),
        sources[j]? = some (some s) →
        (shutdownNotify sources)[j]? =
          some (some { s with mPrefetcherStopped := true })
        ∧ (onPrefetcherStopped s).2 = true)
    ∧ (∀ s : PSState, s.mStarted = true → s.mPrefetcherStopped = true →
        s.mCachedBuffers = [] → read s none = .eosR s)
    ∧ (∀ (s : PSState) (b : MediaBuffer) (rest : List MediaBuffer),
        s.mStarted = true → s.mPrefetcherStopped = true →
        s.mCachedBuffers = b :: rest → allTs rest = true →
        read s none =
          .okR b { s with mCachedBuffers := rest, mCacheDurationUs := durSpec rest }) := by
  refine ⟨?_, ?_, ?_, ?_⟩
  · intro sources j s h
    unfold shutdownNotify at h
    rw [List.getElem?_map] at h
    cases hs : sources[j]? with
    | none => rw [hs] at h; simp at h
    | some o =>
      rw [hs] at h
      cases o with
      | none => simp at h
      | some s0 =>
        simp [onPrefetcherStopped] at h
        rw [← h]
  · intro sources j s h
    unfold shutdownNotify
    rw [List.getElem?_map, h]
    exact ⟨rfl, rfl⟩
  · intro s hst hp hq
    refine read_noseek_eos s hst ?_ hq
    unfold waitCond
    simp [hp]
  · intro s b rest hst _ hq hts
    exact read_noseek_pop s hst b rest hq _ (updateCacheDuration_l_total rest hts)

/-- Witness for C6: the notification marks a resolvable cache stopped; a
stopped, never-fetched cache reads as end-of-stream; a stopped cache with
a queued buffer still delivers it. -/
theorem C6_shutdown_unblocks_readers_witness :
    (shutdownNotify [none, some demoCache])[1]? =
      some (some { demoCache with mPrefetcherStopped := true })
    ∧ read demoStopped none = .eosR demoStopped
    ∧ read demoStoppedBuf none =
        .okR bufA { demoStoppedBuf with
          mCachedBuffers := []
          mCacheDurationUs := durSpec [] } :=
  ⟨(C6_shutdown_unblocks_readers.2.1 [none, some demoCache] 1 demoCache (by decide)).1,
   C6_shutdown_unblocks_readers.2.2.1 demoStopped (by decide) (by decide) (by decide),
   C6_shutdown_unblocks_readers.2.2.2 demoStoppedBuf bufA [] (by decide) (by decide)
     (by decide) (by decide)⟩

/-- Claim C8: `prepare` always returns `OK`; its polling loop terminates
exactly at a snapshot where either no-more-data is reported or the
reported duration reached the 2-second warm-up threshold (strictly below
the 10-second ceiling); under nonnegative stored durations, no-more-data
means no eligible cache remains (and the reported duration is then 0),
and otherwise the reported duration is the minimum over eligible caches. -/
theorem C8_prepare_warmup :
    ((2000000 : Int) < kMaxCacheDurationUs)
    ∧ (∀ (t : List Registry) (r : Int), prepareLoop t = some r → r = 0)
    ∧ (∀ (t : List Registry) (r : Int), prepareLoop t = some r →
        ∃ reg : Registry, reg ∈ t ∧
          ((getCachedDurationUs reg).2 = true ∨ 2000000 ≤ (getCachedDurationUs reg).1))
    ∧ (∀ reg : Registry, NonnegDur reg → (getCachedDurationUs reg).2 = true →
        (∀ (k : Nat) (s : PSState), ¬ EligAt reg k s) ∧ (getCachedDurationUs reg).1 = 0)
    ∧ (∀ reg : Registry, NonnegDur reg → (getCachedDurationUs reg).2 = false →
        ∃ (k : Nat) (s : PSState), EligAt reg k s
          ∧ (getCachedDurationUs reg).1 = s.mCacheDurationUs
          ∧ ∀ (k2 : Nat) (s2 : PSState), EligAt reg k2 s2 →
              s.mCacheDurationUs ≤ s2.mCacheDurationUs) := by
  refine ⟨by decide, ?_, ?_, ?_, ?_⟩
  · intro t
    induction t with
    | nil => intro r h; simp [prepareLoop] at h
    | cons reg rest ih =>
      intro r h
      rw [prepareLoop] at h
      by_cases hc : (getCachedDurationUs reg).2 = false
          ∧ (getCachedDurationUs reg).1 < 2000000
      · rw [if_pos hc] at h
        exact ih r h
      · rw [if_neg hc] at h
        simp at h
        omega
  · intro t
    induction t with
    | nil => intro r h; simp [prepareLoop] at h
    | cons reg rest ih =>
      intro r h
      rw [prepareLoop] at h
      by_cases hc : (getCachedDurationUs reg).2 = false
          ∧ (getCachedDurationUs reg).1 < 2000000
      · rw [if_pos hc] at h
        obtain ⟨reg2, hm, hp⟩ := ih r h
        exact ⟨reg2, List.mem_cons_of_mem reg hm, hp⟩
      · refine ⟨reg, List.mem_cons_self reg rest, ?_⟩
        push_neg at hc
        by_cases h2 : (getCachedDurationUs reg).2 = false
        · exact Or.inr (by have := hc h2; omega)
        · exact Or.inl (by cases hb : (getCachedDurationUs reg).2
                           · exact absurd hb h2
                           · rfl)
  · intro reg hnn hnm
    cases hsel : threadFuncSelect reg with
    | none =>
      constructor
      · intro k s hk
        obtain ⟨q, hq⟩ := selectLoop_isSome_of_elig reg 0 none k s hk
        rw [threadFuncSelect] at hsel
        rw [hq] at hsel
        simp at hsel
      · unfold getCachedDurationUs
        rw [hsel]
    | some p =>
      obtain ⟨j, d⟩ := p
      rcases selectLoop_spec reg 0 none j d hsel with ⟨ha, _⟩ | hr
      · simp at ha
      · obtain ⟨k, s, hget, _, _, hd, _, _⟩ := hr
        have hge : 0 ≤ s.mCacheDurationUs := hnn k s hget
        have hdneg : ¬ d < 0 := by omega
        unfold getCachedDurationUs at hnm
        rw [hsel] at hnm
        simp [hdneg] at hnm
  · intro reg hnn hne
    cases hsel : threadFuncSelect reg with
    | none =>
      unfold getCachedDurationUs at hne
      rw [hsel] at hne
      simp at hne
    | some p =>
      obtain ⟨j, d⟩ := p
      rcases selectLoop_spec reg 0 none j d hsel with ⟨ha, _⟩ | hr
      · simp at ha
      · obtain ⟨k, s, hget, hel, _, hd, _, hmin⟩ := hr
        have hge : 0 ≤ s.mCacheDurationUs := hnn k s hget
        have hdneg : ¬ d < 0 := by omega
        refine ⟨k, s, ⟨hget, hel⟩, ?_, ?_⟩
        · unfold getCachedDurationUs
          rw [hsel]
          simpa [hdneg] using hd
        · intro k2 s2 hk2
          have := (hmin k2 s2 hk2).1
          omega

/-- Witness for C8 on a two-snapshot trace: a 100-microsecond snapshot
keeps polling, a 5-second snapshot ends the loop with `OK`. -/
theorem C8_prepare_warmup_witness :
    prepareLoop demoTrace = some 0
    ∧ (∃ reg : Registry, reg ∈ demoTrace ∧
        ((getCachedDurationUs reg).2 = true ∨ 2000000 ≤ (getCachedDurationUs reg).1))
    ∧ (∃ (k : Nat) (s : PSState), EligAt [some demoHigh] k s
        ∧ (getCachedDurationUs [some demoHigh]).1 = s.mCacheDurationUs
        ∧ ∀ (k2 : Nat) (s2 : PSState), EligAt [some demoHigh] k2 s2 →
            s.mCacheDurationUs ≤ s2.mCacheDurationUs) := by
  have hnn : NonnegDur [some demoHigh] := by
    intro k s h
    cases k with
    | zero =>
      simp at h
      rw [← h]
      decide
    | succ k => simp at h
  exact ⟨by decide, C8_prepare_warmup.2.2.1 demoTrace 0 (by decide),
    C8_prepare_warmup.2.2.2.2 [some demoHigh] hnn (by decide)⟩

/-- Claim C9: the constructor initialises the pending seek to timestamp 0
(not the `-1` sentinel), so the very first `cacheMore` after a start
passes a seek-to-0 option to the wrapped source's read and only then
resets the pending seek to `-1`; later fetches (absent a new seek) pass
no seek option. -/
theorem C9_fresh_cache_seeks_to_zero :
    initPrefetchedSource.mSeekTimeUs = 0
    ∧ initPrefetchedSource.mSeekTimeUs ≠ -1
    ∧ (∀ src : Option Int → SrcReadResult,
        (cacheMore { initPrefetchedSource with mStarted := true } src).passedSeek = some 0
        ∧ ∀ s2 : PSState,
            (cacheMore { initPrefetchedSource with mStarted := true } src).state
              = some s2 → s2.mSeekTimeUs = -1)
    ∧ (∀ (s : PSState) (src : Option Int → SrcReadResult),
        s.mStarted = true → s.mSeekTimeUs = -1 →
        (cacheMore s src).passedSeek = none) := by
  refine ⟨rfl, by decide, ?_, ?_⟩
  · intro src
    obtain ⟨hp, _, hs⟩ :=
      cacheMore_shape { initPrefetchedSource with mStarted := true } src rfl
    refine ⟨?_, ?_⟩
    · rw [hp]
      decide
    · intro s2 h2
      rw [hs s2 h2]
      decide
  · intro s src hst hseek
    obtain ⟨hp, _, _⟩ := cacheMore_shape s src hst
    rw [hp]
    unfold pendingOpt
    rw [hseek]
    simp

/-- Witness for C9: the first fetch of a freshly started cache passes
seek-to-0; a cache whose pending seek is `-1` passes none. -/
theorem C9_fresh_cache_seeks_to_zero_witness :
    (cacheMore { initPrefetchedSource with mStarted := true } srcOkA).passedSeek = some 0
    ∧ (cacheMore demoCache srcOkA).passedSeek = none :=
  ⟨(C9_fresh_cache_seeks_to_zero.2.2.1 srcOkA).1,
   C9_fresh_cache_seeks_to_zero.2.2.2 demoCache srcOkA (by decide) (by decide)⟩

/-- Claim C10: the duration recomputation asserts a timestamp on the
oldest and newest queued buffer, while `cacheMore` appends its copy even
when the source's buffer carries no timestamp (the timestamp is copied
only when present); recomputation is total when every buffer carries a
timestamp, and a fetch delivering a timestamp-less buffer into a
non-empty queue makes the assertion fire. -/
theorem C10_timestamp_assertion_totality :
    (∀ bufs : List MediaBuffer, allTs bufs = true →
      updateCacheDuration_l bufs = some (durSpec bufs))
    ∧ (∀ b : MediaBuffer, (copyBuffer b).timeUs = b.timeUs)
    ∧ (∀ (s : PSState) (src : Option Int → SrcReadResult) (b : MediaBuffer),
        s.mStarted = true → (src (pendingOpt s)).err = 0 →
        (src (pendingOpt s)).buf = some b → b.timeUs = none →
        s.mCachedBuffers ≠ [] → (cacheMore s src).state = none)
    ∧ (∀ (s : PSState) (src : Option Int → SrcReadResult) (b : MediaBuffer),
        s.mStarted = true → (src (pendingOpt s)).err = 0 →
        (src (pendingOpt s)).buf = some b → b.timeUs.isSome = true →
        allTs s.mCachedBuffers = true →
        ∃ s2 : PSState, (cacheMore s src).state = some s2
          ∧ allTs s2.mCachedBuffers = true) := by
  refine ⟨updateCacheDuration_l_total, fun b => rfl, ?_, ?_⟩
  · intro s src b hst he hb hts hne
    have hu : updateCacheDuration_l (s.mCachedBuffers ++ [copyBuffer b]) = none := by
      unfold updateCacheDuration_l
      have hlen : ¬ (s.mCachedBuffers ++ [copyBuffer b]).length < 2 := by
        cases hq : s.mCachedBuffers with
        | nil => exact absurd hq hne
        | cons x xs => simp [hq]
      rw [if_neg hlen]
      have hlast : (s.mCachedBuffers ++ [copyBuffer b]).getLast? = some (copyBuffer b) := by
        simp
      have hcopy : (copyBuffer b).timeUs = none := hts
      cases hh : ((s.mCachedBuffers ++ [copyBuffer b]).head?.bind MediaBuffer.timeUs) with
      | none => simp [hh, hlast, hcopy]
      | some f => simp [hh, hlast, hcopy]
    rw [cacheMore_ok_crash s src b hst he hb hu]
  · intro s src b hst he hb hts hall
    have hall2 : allTs (s.mCachedBuffers ++ [copyBuffer b]) = true := by
      unfold allTs at hall ⊢
      rw [List.all_append]
      simp only [hall, Bool.true_and]
      simp [copyBuffer, hts]
    have hu := updateCacheDuration_l_total _ hall2
    rw [cacheMore_ok s src b _ hst he hb hu]
    exact ⟨{ afterOpt s with
        mCachedBuffers := s.mCachedBuffers ++ [copyBuffer b]
        mCacheDurationUs := durSpec (s.mCachedBuffers ++ [copyBuffer b]) },
      rfl, hall2⟩

/-- Witness for C10: fetching a timestamp-less buffer into a two-buffer
queue aborts; fetching a timestamped one into the same queue succeeds. -/
theorem C10_timestamp_assertion_totality_witness :
    (cacheMore demoCache srcOkNoTs).state = none
    ∧ (∃ s2 : PSState, (cacheMore demoCache srcOkA).state = some s2
        ∧ allTs s2.mCachedBuffers = true)
    ∧ updateCacheDuration_l [bufA, bufB] = some (durSpec [bufA, bufB]) :=
  ⟨C10_timestamp_assertion_totality.2.2.1 demoCache srcOkNoTs bufNoTs (by decide) rfl rfl
      rfl (by decide),
   C10_timestamp_assertion_totality.2.2.2 demoCache srcOkA bufA (by decide) rfl rfl rfl
      (by decide),
   C10_timestamp_assertion_totality.1 [bufA, bufB] (by decide)⟩

end Stagefright
